import Mathlib

/-!
Verification development for the `request` crate, a minimal HTTP client.

The embedding models the pure parts of the crate over `List Char`
(strings) and `Nat` (machine integers; the only width that matters is
`u16`, checked explicitly where the code can overflow it):

* `Response.parse` (src/response.rs): the status-line/header/body regex
  is modelled by a specialised matcher, `matchAt`/`findCaps`, that
  follows the leftmost-first (Perl-like, greedy, backtracking-priority)
  semantics of the `regex` crate for the exact pattern
  `(?P<version>HTTP\/\d\.\d) (?P<status>\d+) (?P<reason>[a-zA-Z ]+)`
  `(?:\r?\n(?P<headers>(?:.+\r?\n)+))?(?:\r?\n(?P<body>[\S\s]*))?`.
* `uri.host`/`uri.port`/`uri.path` (src/uri.rs): the URI regex
  `(?:(?P<scheme>https?)://)?(?P<host>[0-9a-zA-Z\.\-]+)`
  `(?:\:(?P<port>\d+))?(?P<path>/(?:.)*)?` is modelled the same way.
* `Request` and its builder methods, `Display for Request`
  (serialisation) and the redirect-deciding part of `Request::send`
  (src/request.rs): the network transport is abstracted by a list of
  successive responses (`Request.sendWith`).
* the DNS name encoder inside `dns::resolve` (src/dns.rs).

Rust `HashMap`s are modelled as association lists with
insert-overwrites-key semantics (`hInsert`/`hGet`).
-/

/-! ## Character classes (ASCII fragments of the regex classes) -/

/-- `\d` of the status/port patterns (decimal digit). -/
def isDigitC (c : Char) : Bool := '0' ≤ c && c ≤ '9'

/-- `[a-zA-Z ]`, the reason-phrase class. -/
def isReasonC (c : Char) : Bool := ('a' ≤ c && c ≤ 'z') || ('A' ≤ c && c ≤ 'Z') || c == ' '

/-- `[0-9a-zA-Z\.\-]`, the host class of the URI regex. -/
def isHostC (c : Char) : Bool :=
  isDigitC c || ('a' ≤ c && c ≤ 'z') || ('A' ≤ c && c ≤ 'Z') || c == '.' || c == '-'

/-- Negation of `\n`: the regex `.` metacharacter matches any character
except a line feed (it does match `\r`). -/
def notNl (c : Char) : Bool := !(c == '\n')

/-- `char::is_ascii` (code point below 128). -/
def isAsciiC (c : Char) : Bool := c.toNat < 128

/-! ## Association-list model of `HashMap` -/

/-- `HashMap::insert`: overwrite the value when the key is present,
otherwise add the binding. -/
def hInsert (m : List (List Char × List Char)) (k v : List Char) :
    List (List Char × List Char) :=
  match m with
  | [] => [(k, v)]
  | (k', v') :: rest => if k' = k then (k, v) :: rest else (k', v') :: hInsert rest k v

/-- `HashMap::get`. -/
def hGet (m : List (List Char × List Char)) (k : List Char) : Option (List Char) :=
  match m with
  | [] => none
  | (k', v') :: rest => if k' = k then some v' else hGet rest k

/-- `collect::<HashMap<_, _>>()` over a list of key/value pairs: inserts
in order, later duplicates overwriting earlier ones. -/
def hCollect (l : List (List Char × List Char)) : List (List Char × List Char) :=
  l.foldl (fun m kv => hInsert m kv.1 kv.2) []

/-! ## String helpers from the Rust standard library -/

/-- `str::split_once(": ")`: split at the first occurrence of the
two-character separator `": "`, or `None` when it does not occur. -/
def splitOnceCS (l : List Char) : Option (List Char × List Char) :=
  match l with
  | [] => none
  | c :: rest =>
    if c = ':' ∧ rest.head? = some ' ' then some ([], rest.tail)
    else (splitOnceCS rest).map (fun p => (c :: p.1, p.2))

/-- Whether `": "` occurs in the list (the negation is the precondition
for a header name to survive a round trip). -/
def containsCS (l : List Char) : Bool :=
  match l with
  | [] => false
  | c :: rest =>
    if c = ':' ∧ rest.head? = some ' ' then true
    else containsCS rest

/-- Strip one trailing `'\r'`, as `str::lines` does on each line that
ended in `"\r\n"`. -/
def stripCr (l : List Char) : List Char :=
  if l.getLast? = some '\r' then l.dropLast else l

/-- Fuelled worker for `rustLines`; the fuel only bounds recursion depth
and `rustLines` always supplies enough. -/
def rustLinesF : Nat → List Char → List (List Char)
  | 0, _ => []
  | fuel + 1, s =>
    if s = [] then []
    else
      match s.dropWhile notNl with
      | '\n' :: rest => stripCr (s.takeWhile notNl) :: rustLinesF fuel rest
      | _ => [s.takeWhile notNl]

/-- `str::lines`: split on `'\n'`, strip a trailing `'\r'` from each
terminated line, with an optional final unterminated line (whose
trailing `'\r'`, if any, is kept). -/
def rustLines (s : List Char) : List (List Char) := rustLinesF s.length s

/-! ## `Response::parse` (src/response.rs) -/

/-- An HTTP response (src/response.rs).  `status` is the `u16` status
code, headers are the parsed header map. -/
structure Response where
  version : List Char
  status : Nat
  reason : List Char
  headers : List (List Char × List Char)
  body : List Char
deriving DecidableEq

/-- Captures of the response regex: the named groups, with the two
optional groups as `Option`. -/
structure Caps where
  version : List Char
  status : List Char
  reason : List Char
  headers : Option (List Char)
  body : Option (List Char)
deriving DecidableEq

/-- Consume `\r?\n` (greedy `\r?`). -/
def eatNewline (s : List Char) : Option (List Char) :=
  match s with
  | [] => none
  | c :: rest =>
    if c = '\n' then some rest
    else if c = '\r' then
      match rest with
      | '\n' :: rest2 => some rest2
      | _ => none
    else none

/-- Fuelled worker for `headersLoop`. -/
def headersLoopF : Nat → List Char → List Char × List Char
  | 0, s => ([], s)
  | fuel + 1, s =>
    if s.takeWhile notNl = [] then ([], s)
    else
      match s.dropWhile notNl with
      | '\n' :: rest =>
        (s.takeWhile notNl ++ '\n' :: (headersLoopF fuel rest).1, (headersLoopF fuel rest).2)
      | _ => ([], s)

/-- The greedy `(?:.+\r?\n)+` loop: consumes the maximal run of
newline-terminated nonempty lines (`.` matches `'\r'` but not `'\n'`,
so each iteration is a nonempty `'\n'`-free run followed by `'\n'`).
Returns the consumed region and the remainder. -/
def headersLoop (s : List Char) : List Char × List Char := headersLoopF s.length s

/-- The optional group `(?:\r?\n(?P<headers>(?:.+\r?\n)+))?`: if the
newline or the first loop iteration fails the whole group is skipped
and the position is restored. -/
def groupA (s : List Char) : Option (List Char) × List Char :=
  match eatNewline s with
  | none => (none, s)
  | some s1 =>
    if (headersLoop s1).1 = [] then (none, s)
    else (some (headersLoop s1).1, (headersLoop s1).2)

/-- The literal-and-version prefix `HTTP\/\d\.\d` of the pattern. -/
def matchVersion (s : List Char) : Option (List Char × List Char) :=
  match s with
  | 'H' :: 'T' :: 'T' :: 'P' :: '/' :: d1 :: '.' :: d2 :: rest =>
    if isDigitC d1 && isDigitC d2 then some (['H', 'T', 'T', 'P', '/', d1, '.', d2], rest)
    else none
  | _ => none

/-- Match the full response pattern at the current position.  The greedy
`\d+` and `[a-zA-Z ]+` runs are maximal (shorter runs leave a digit or
letter where the following literal space must match, so backtracking
never helps), and once the reason is matched the two optional trailing
groups can no longer fail the match, so their greedy resolution is
final. -/
def matchAt (s : List Char) : Option Caps :=
  match matchVersion s with
  | none => none
  | some (ver, tail) =>
    match tail with
    | ' ' :: rest =>
      let st := rest.takeWhile isDigitC
      if st = [] then none
      else
        match rest.dropWhile isDigitC with
        | ' ' :: rest2 =>
          let re := rest2.takeWhile isReasonC
          if re = [] then none
          else
            let rest3 := rest2.dropWhile isReasonC
            let a := groupA rest3
            some ⟨ver, st, re, a.1, eatNewline a.2⟩
        | _ => none
    | _ => none

/-- `Regex::captures`: the leftmost position at which the pattern
matches. -/
def findCaps (s : List Char) : Option Caps :=
  match s with
  | [] => none
  | c :: rest =>
    match matchAt (c :: rest) with
    | some caps => some caps
    | none => findCaps rest

/-- Value of a digit string, as `u16::from_str` computes it. -/
def digitsToNat (l : List Char) : Nat := l.foldl (fun a c => 10 * a + (c.toNat - 48)) 0

/-- Outcome of `Response::parse`: `Ok`, `Err("invalid message")`, or a
panic (the code calls `.unwrap()` on `parse::<u16>()`, which aborts
when the digit string exceeds `u16::MAX`). -/
inductive ParseResult where
  | ok (r : Response)
  | err (e : List Char)
  | panicked
deriving DecidableEq

/-- The header post-processing of `Response::parse`:
`headers.lines().filter_map(|l| l.split_once(": ")).collect::<HashMap<_, _>>()`. -/
def collectHeaders (s : List Char) : List (List Char × List Char) :=
  hCollect ((rustLines s).filterMap splitOnceCS)

/-- `Response::parse` (src/response.rs, lines 24-61). -/
def Response.parse (message : List Char) : ParseResult :=
  match findCaps message with
  | none => .err ("invalid message".toList)
  | some caps =>
    if digitsToNat caps.status < 65536 then
      .ok ⟨caps.version, digitsToNat caps.status, caps.reason,
           collectHeaders (caps.headers.getD []), caps.body.getD []⟩
    else .panicked

/-! ## The URI regex (src/uri.rs) -/

/-- Captures of the URI regex. -/
structure UriCaps where
  scheme : Option (List Char)
  host : List Char
  port : Option (List Char)
  path : Option (List Char)
deriving DecidableEq

/-- The optional scheme group `(?:(?P<scheme>https?)://)?` (greedy `s?`:
`https` is preferred when both fit). -/
def schemeSplit (s : List Char) : Option (List Char × List Char) :=
  match s with
  | 'h' :: 't' :: 't' :: 'p' :: 's' :: ':' :: '/' :: '/' :: rest =>
    some (['h', 't', 't', 'p', 's'], rest)
  | 'h' :: 't' :: 't' :: 'p' :: ':' :: '/' :: '/' :: rest =>
    some (['h', 't', 't', 'p'], rest)
  | _ => none

/-- The path group `(?P<path>/(?:.)*)?`: a slash followed by the greedy
run of non-newline characters. -/
def uriPath (s : List Char) : Option (List Char) :=
  match s with
  | '/' :: r => some ('/' :: r.takeWhile notNl)
  | _ => none

/-- The port and path groups after the host: `(?:\:(?P<port>\d+))?`
skips (restoring the position to before the colon) when no digit
follows the colon. -/
def uriAfterHost (s1 : List Char) : Option (List Char) × Option (List Char) :=
  match s1 with
  | ':' :: s2 =>
    if s2.takeWhile isDigitC = [] then (none, uriPath s1)
    else (some (s2.takeWhile isDigitC), uriPath (s2.dropWhile isDigitC))
  | _ => (none, uriPath s1)

/-- Host, port and path at the current position, with the already
matched scheme (if any).  Fails only when the mandatory host run is
empty. -/
def uriTail (sch : Option (List Char)) (s : List Char) : Option UriCaps :=
  let host := s.takeWhile isHostC
  if host = [] then none
  else
    let pp := uriAfterHost (s.dropWhile isHostC)
    some ⟨sch, host, pp.1, pp.2⟩

/-- Match the URI pattern at the current position: try the optional
scheme group first, fall back to skipping it. -/
def uriMatchAt (s : List Char) : Option UriCaps :=
  match schemeSplit s with
  | some (sch, rest) =>
    match uriTail (some sch) rest with
    | some caps => some caps
    | none => uriTail none s
  | none => uriTail none s

/-- `URI_REGEX.captures`: leftmost match. -/
def uriFind (s : List Char) : Option UriCaps :=
  match s with
  | [] => none
  | c :: rest =>
    match uriMatchAt (c :: rest) with
    | some caps => some caps
    | none => uriFind rest

namespace uri

/-- `uri::host` (src/uri.rs). -/
def host (url : List Char) : Option (List Char) :=
  (uriFind url).map UriCaps.host

/-- `uri::port` (src/uri.rs). -/
def port (url : List Char) : Option (List Char) :=
  match uriFind url with
  | none => none
  | some caps => caps.port

/-- `uri::path` (src/uri.rs): the captured path, defaulting to `"/"`
when the group did not participate. -/
def path (url : List Char) : Option (List Char) :=
  match uriFind url with
  | none => none
  | some caps => some (caps.path.getD ['/'])

end uri

/-! ## `Request` and its builder (src/request.rs) -/

/-- HTTP methods (src/request.rs). -/
inductive Method where
  | GET | HEAD | POST | PUT | DELETE | CONNECT | OPTIONS | TRACE | PATCH
deriving DecidableEq

/-- An HTTP request (src/request.rs). -/
structure Request where
  url : List Char
  method : Method
  headers : List (List Char × List Char)
  body : List Char
  redirects : Nat
deriving DecidableEq

/-- `Request::new`. -/
def Request.new (url : List Char) (method : Method) : Request :=
  ⟨url, method, [], [], 4⟩

/-- `Request::method` (builder setter; named `setMethod` because `method`
is the field projection). -/
def Request.setMethod (self : Request) (method : Method) : Request :=
  { self with method := method }

/-- `Request::url` (builder setter). -/
def Request.setUrl (self : Request) (url : List Char) : Request :=
  { self with url := url }

/-- `Request::body` (builder setter). -/
def Request.setBody (self : Request) (body : List Char) : Request :=
  { self with body := body }

/-- `Request::header`. -/
def Request.header (self : Request) (key value : List Char) : Request :=
  { self with headers := hInsert self.headers key value }

/-- `Request::redirects` (builder setter). -/
def Request.setRedirects (self : Request) (max : Nat) : Request :=
  { self with redirects := max }

/-- `Request::get`. -/
def Request.get (url : List Char) : Request := Request.new url .GET

/-- `Request::post`. -/
def Request.post (url body : List Char) : Request := (Request.new url .POST).setBody body

/-- The `Debug` rendering of a method, used by `Display for Request`. -/
def methodName : Method → List Char
  | .GET => "GET".toList
  | .HEAD => "HEAD".toList
  | .POST => "POST".toList
  | .PUT => "PUT".toList
  | .DELETE => "DELETE".toList
  | .CONNECT => "CONNECT".toList
  | .OPTIONS => "OPTIONS".toList
  | .TRACE => "TRACE".toList
  | .PATCH => "PATCH".toList

/-- `Display for Request` (src/request.rs, lines 231-245):
`"{method:?} {path} HTTP/1.1\r\n{headers}\r\n\r\n{body}"` where the
header block is `Host: {host}` followed by each stored header, joined
with `"\r\n"`.  `None` models the `fmt::Error` returned when the URI
regex yields no path or host. -/
def Request.toString (self : Request) : Option (List Char) :=
  match uri.path self.url, uri.host self.url with
  | some path, some host =>
    some (methodName self.method ++ ' ' :: path ++ ' ' :: "HTTP/1.1".toList
      ++ ['\r', '\n'] ++ "Host: ".toList ++ host
      ++ self.headers.flatMap (fun kv => '\r' :: '\n' :: (kv.1 ++ ':' :: ' ' :: kv.2))
      ++ ['\r', '\n', '\r', '\n'] ++ self.body)
  | _, _ => none

/-! ## The redirect state machine of `Request::send` (src/request.rs) -/

/-- What `Request::send` does with one parsed response: return it,
fail, or construct the follow-up request of a redirect hop. -/
inductive StepResult where
  | done (r : Response)
  | fail (e : List Char)
  | follow (q : Request)
deriving DecidableEq

/-- The error message of an exhausted redirect budget. -/
def redirectLimitMsg : List Char := "maximum redirect limit reached".toList

/-- The error message of a redirect without a `Location` header. -/
def noLocationMsg : List Char := "no location header provided in redirect".toList

/-- The `Location` header key. -/
def locationKey : List Char := "Location".toList

/-- The redirect decision of `Request::send` (src/request.rs, lines
209-228): on a 3xx status, first check the redirect budget, then the
`Location` header, then rebuild the request with the new URL and the
decremented budget, keeping the method exactly when the status is 303
and forcing `GET` otherwise. -/
def Request.handle (self : Request) (response : Response) : StepResult :=
  if 300 ≤ response.status ∧ response.status < 400 then
    if self.redirects = 0 then .fail redirectLimitMsg
    else
      match hGet response.headers locationKey with
      | none => .fail noLocationMsg
      | some location =>
        let request := (self.setRedirects (self.redirects - 1)).setUrl location
        if response.status = 303 then .follow request
        else .follow (request.setMethod .GET)
  else .done response

/-- `Request::send` with the network abstracted by the list of
responses successive hops would receive; an exhausted list models a
transport failure. -/
def Request.sendWith (self : Request) : List Response → Except (List Char) Response
  | [] => .error ("connection failed".toList)
  | r :: rs =>
    match self.handle r with
    | .done resp => .ok resp
    | .fail e => .error e
    | .follow req => req.sendWith rs

/-! ## DNS name encoding (src/dns.rs) -/

/-- `str::split('.')`. -/
def splitDot (s : List Char) : List (List Char) :=
  match s with
  | [] => [[]]
  | c :: rest =>
    if c = '.' then [] :: splitDot rest
    else
      match splitDot rest with
      | l :: ls => (c :: l) :: ls
      | [] => [[c]]

/-- The DNS name encoder inside `dns::resolve` (src/dns.rs, lines
20-27): filter the query down to its ASCII characters, split on `'.'`,
and for each label emit `u8::try_from(l.len()).unwrap_or(63).min(63)`
followed by `l.bytes().take(63)`, then a terminating zero byte. -/
def dnsName (query : List Char) : List Nat :=
  (splitDot (query.filter isAsciiC)).flatMap
    (fun l => (if 255 < l.length then 63 else l.length).min 63 :: (l.map Char.toNat).take 63)
  ++ [0]

/-- The claim's description of the encoder: over the `'.'`-separated
labels of the hostname with non-ASCII characters stripped, one length
byte `min(label length, 63)` followed by the first `min(label length,
63)` bytes of the label, terminated by a single zero byte. -/
def dnsNameSpec (query : List Char) : List Nat :=
  ((splitDot query).map (List.filter isAsciiC)).flatMap
    (fun l => Nat.min l.length 63 :: (l.map Char.toNat).take 63)
  ++ [0]

/-! ## Serialisation shapes used by the round-trip claims -/

/-- A response text consisting of an `HTTP/1.1` status line with the
given status digits and reason-phrase region, followed by the given
tail (whatever comes after the reason region). -/
def mkStatusMsg (sd re tail : List Char) : List Char :=
  'H' :: 'T' :: 'T' :: 'P' :: '/' :: '1' :: '.' :: '1' :: ' ' ::
    (sd ++ ' ' :: (re ++ tail))

/-- A response text of the shape the spec's round trip serialises: a
status line (with the given status digits and reason), CRLF, the given
raw header lines each followed by CRLF, a blank line, then the body. -/
def mkResponseText (sd re : List Char) (ls : List (List Char)) (body : List Char) :
    List Char :=
  mkStatusMsg sd re
    ('\r' :: '\n' :: (ls.flatMap (fun l => l ++ ['\r', '\n']) ++ '\r' :: '\n' :: body))

/-- The header line rendered for a map entry, `"Name: value"`. -/
def renderHeader (kv : List Char × List Char) : List Char :=
  kv.1 ++ ':' :: ' ' :: kv.2

/-- `build-line-for` of the spec's round-trip property: serialise
status digits, reason, a header map (one `"Name: value"` line per
entry) and a body as a status line, header lines, a blank line and the
body, CRLF-separated. -/
def serializeResponse (sd re : List Char) (hs : List (List Char × List Char))
    (body : List Char) : List Char :=
  mkResponseText sd re (hs.map renderHeader) body

/-- The wire text `Display for Request` produces when the URI has no
explicit path component: the request line carries the default path
`/`. -/
def serializedWithRootPath (r : Request) (host : List Char) : List Char :=
  methodName r.method ++ ' ' :: ['/'] ++ ' ' :: "HTTP/1.1".toList
    ++ ['\r', '\n'] ++ "Host: ".toList ++ host
    ++ r.headers.flatMap (fun kv => '\r' :: '\n' :: (kv.1 ++ ':' :: ' ' :: kv.2))
    ++ ['\r', '\n', '\r', '\n'] ++ r.body

/-! ### Concrete fixtures used by witnesses and counterexamples -/

/-- A 301 response carrying a `Location` header. -/
def resp301 : Response :=
  ⟨"HTTP/1.1".toList, 301, "Moved Permanently".toList,
   [("Location".toList, "http://example.org/b".toList)], []⟩

/-- A 301 response with no `Location` header. -/
def respNoLoc : Response :=
  ⟨"HTTP/1.1".toList, 301, "Moved Permanently".toList, [], []⟩

/-- A 200 response. -/
def resp200 : Response := ⟨"HTTP/1.1".toList, 200, "OK".toList, [], []⟩

/-- A POST request with the default redirect budget of 4. -/
def reqEx : Request := Request.post "example.org".toList "payload".toList

/-- The same request with an exhausted redirect budget. -/
def reqZero : Request := reqEx.setRedirects 0

/-! ## List helpers for the greedy runs -/

theorem takeWhile_append_of_all (p : Char → Bool) (xs ys : List Char)
    (h : ∀ x ∈ xs, p x = true) :
    (xs ++ ys).takeWhile p = xs ++ ys.takeWhile p := by
  induction xs with
  | nil => simp
  | cons a t ih =>
    have ha : p a = true := h a (by simp)
    simp only [List.cons_append, List.takeWhile_cons, ha, if_true]
    rw [ih (fun x hx => h x (by simp [hx]))]

theorem dropWhile_append_of_all (p : Char → Bool) (xs ys : List Char)
    (h : ∀ x ∈ xs, p x = true) :
    (xs ++ ys).dropWhile p = ys.dropWhile p := by
  induction xs with
  | nil => simp
  | cons a t ih =>
    have ha : p a = true := h a (by simp)
    simp only [List.cons_append, List.dropWhile_cons, ha, if_true]
    exact ih (fun x hx => h x (by simp [hx]))

theorem takeWhile_run (p : Char → Bool) (xs : List Char) (y : Char) (ys : List Char)
    (h : ∀ x ∈ xs, p x = true) (hy : p y = false) :
    (xs ++ y :: ys).takeWhile p = xs := by
  rw [takeWhile_append_of_all p xs _ h]
  simp [List.takeWhile_cons, hy]

theorem dropWhile_run (p : Char → Bool) (xs : List Char) (y : Char) (ys : List Char)
    (h : ∀ x ∈ xs, p x = true) (hy : p y = false) :
    (xs ++ y :: ys).dropWhile p = y :: ys := by
  rw [dropWhile_append_of_all p xs _ h]
  simp [List.dropWhile_cons, hy]

/-! ## Fuel adequacy for `headersLoop` and `rustLines` -/

theorem headersLoopF_nil (fuel : Nat) : headersLoopF fuel [] = ([], []) := by
  cases fuel <;> simp [headersLoopF]

theorem headersLoopF_stable :
    ∀ f1 : Nat, ∀ s : List Char, ∀ f2 : Nat, s.length ≤ f1 → s.length ≤ f2 →
      headersLoopF f1 s = headersLoopF f2 s := by
  intro f1
  induction f1 with
  | zero =>
    intro s f2 h1 _
    have : s = [] := List.length_eq_zero.mp (Nat.le_zero.mp h1)
    subst this
    rw [headersLoopF_nil, headersLoopF_nil]
  | succ n ih =>
    intro s f2 h1 h2
    cases s with
    | nil => rw [headersLoopF_nil, headersLoopF_nil]
    | cons a s0 =>
      cases f2 with
      | zero => simp at h2
      | succ m =>
        simp only [headersLoopF]
        by_cases hline : (a :: s0).takeWhile notNl = []
        · simp [hline]
        · simp only [hline, if_false]
          cases hdrop : (a :: s0).dropWhile notNl with
          | nil => rfl
          | cons b rest =>
            by_cases hb : b = '\n'
            · subst hb
              have hlen : (a :: s0).length = ((a :: s0).takeWhile notNl).length
                  + ('\n' :: rest).length := by
                rw [← hdrop, ← List.length_append, List.takeWhile_append_dropWhile]
              have htk : 1 ≤ ((a :: s0).takeWhile notNl).length := by
                cases h : (a :: s0).takeWhile notNl with
                | nil => exact absurd h hline
                | cons _ _ => simp
              have hr1 : rest.length ≤ n := by
                simp only [List.length_cons] at hlen h1
                omega
              have hr2 : rest.length ≤ m := by
                simp only [List.length_cons] at hlen h2
                omega
              simp [ih rest m hr1 hr2]
            · have : ∀ rest2, b :: rest ≠ '\n' :: rest2 := by
                intro rest2 hcon
                exact hb (List.cons.injEq .. ▸ hcon |>.1)
              cases b <;> simp_all

theorem rustLinesF_stable :
    ∀ f1 : Nat, ∀ s : List Char, ∀ f2 : Nat, s.length ≤ f1 → s.length ≤ f2 →
      rustLinesF f1 s = rustLinesF f2 s := by
  intro f1
  induction f1 with
  | zero =>
    intro s f2 h1 _
    have : s = [] := List.length_eq_zero.mp (Nat.le_zero.mp h1)
    subst this
    cases f2 <;> simp [rustLinesF]
  | succ n ih =>
    intro s f2 h1 h2
    cases s with
    | nil => cases f2 <;> simp [rustLinesF]
    | cons a s0 =>
      cases f2 with
      | zero => simp at h2
      | succ m =>
        simp only [rustLinesF]
        cases hdrop : (a :: s0).dropWhile notNl with
        | nil => rfl
        | cons b rest =>
          by_cases hb : b = '\n'
          · subst hb
            have hlen : (a :: s0).length = ((a :: s0).takeWhile notNl).length
                + ('\n' :: rest).length := by
              rw [← hdrop, ← List.length_append, List.takeWhile_append_dropWhile]
            have hr1 : rest.length ≤ n := by
              simp only [List.length_cons] at hlen h1
              omega
            have hr2 : rest.length ≤ m := by
              simp only [List.length_cons] at hlen h2
              omega
            simp [ih rest m hr1 hr2]
          · cases b <;> simp_all

/-! ## Behaviour of the greedy header loop on line blocks -/

theorem headersLoopF_succ (fuel : Nat) (s : List Char) :
    headersLoopF (fuel + 1) s =
      if s.takeWhile notNl = [] then ([], s)
      else
        match s.dropWhile notNl with
        | '\n' :: rest =>
          (s.takeWhile notNl ++ '\n' :: (headersLoopF fuel rest).1, (headersLoopF fuel rest).2)
        | _ => ([], s) := rfl

theorem headersLoop_nil : headersLoop [] = ([], []) := rfl

theorem headersLoop_step (l rest : List Char) (hne : l ≠ [])
    (hl : ∀ c ∈ l, notNl c = true) :
    headersLoop (l ++ '\n' :: rest) =
      (l ++ '\n' :: (headersLoop rest).1, (headersLoop rest).2) := by
  obtain ⟨a, l0, rfl⟩ := List.exists_cons_of_ne_nil hne
  unfold headersLoop
  have hlen : ((a :: l0) ++ '\n' :: rest).length = (l0.length + rest.length + 1) + 1 := by
    simp
    omega
  rw [hlen, headersLoopF_succ]
  rw [takeWhile_run notNl _ _ _ hl (by rfl), dropWhile_run notNl _ _ _ hl (by rfl)]
  simp only [reduceCtorEq, if_false]
  rw [headersLoopF_stable (l0.length + rest.length + 1) rest rest.length (by omega)
    (Nat.le_refl _)]

theorem headersLoop_block (ls : List (List Char)) (tail : List Char)
    (h : ∀ l ∈ ls, ∀ c ∈ l, notNl c = true) :
    headersLoop (ls.flatMap (fun l => l ++ ['\r', '\n']) ++ tail) =
      (ls.flatMap (fun l => l ++ ['\r', '\n']) ++ (headersLoop tail).1,
       (headersLoop tail).2) := by
  induction ls with
  | nil => simp
  | cons l ls ih =>
    have hres : (l :: ls).flatMap (fun l => l ++ ['\r', '\n']) ++ tail =
        (l ++ ['\r']) ++ '\n' :: (ls.flatMap (fun l => l ++ ['\r', '\n']) ++ tail) := by
      simp
    rw [hres, headersLoop_step _ _ (by simp)]
    · rw [ih (fun l hl => h l (by simp [hl]))]
      simp
    · intro c hc
      rcases List.mem_append.mp hc with hc | hc
      · exact h l (by simp) c hc
      · simp only [List.mem_singleton] at hc
        subst hc
        rfl

/-! ## Behaviour of `rustLines` and `collectHeaders` on CRLF blocks -/

theorem rustLinesF_succ (fuel : Nat) (s : List Char) :
    rustLinesF (fuel + 1) s =
      if s = [] then []
      else
        match s.dropWhile notNl with
        | '\n' :: rest => stripCr (s.takeWhile notNl) :: rustLinesF fuel rest
        | _ => [s.takeWhile notNl] := rfl

theorem rustLines_step (l rest : List Char) (hl : ∀ c ∈ l, notNl c = true) :
    rustLines (l ++ '\n' :: rest) = stripCr l :: rustLines rest := by
  unfold rustLines
  have hlen : (l ++ '\n' :: rest).length = (l.length + rest.length) + 1 := by
    simp
    omega
  rw [hlen, rustLinesF_succ, if_neg (by simp)]
  rw [takeWhile_run notNl _ _ _ hl (by rfl), dropWhile_run notNl _ _ _ hl (by rfl)]
  show stripCr l :: rustLinesF (l.length + rest.length) rest = _
  rw [rustLinesF_stable (l.length + rest.length) rest rest.length (by omega) (Nat.le_refl _)]

theorem stripCr_concat (l : List Char) : stripCr (l ++ ['\r']) = l := by
  simp [stripCr, List.getLast?_concat, List.dropLast_concat]

theorem rustLines_crlf_block (ls : List (List Char))
    (h : ∀ l ∈ ls, ∀ c ∈ l, notNl c = true) :
    rustLines (ls.flatMap (fun l => l ++ ['\r', '\n'])) = ls := by
  induction ls with
  | nil => rfl
  | cons l ls ih =>
    have hres : (l :: ls).flatMap (fun l => l ++ ['\r', '\n']) =
        (l ++ ['\r']) ++ '\n' :: ls.flatMap (fun l => l ++ ['\r', '\n']) := by
      simp
    rw [hres, rustLines_step]
    · rw [stripCr_concat, ih (fun l hl => h l (by simp [hl]))]
    · intro c hc
      rcases List.mem_append.mp hc with hc | hc
      · exact h l (by simp) c hc
      · simp only [List.mem_singleton] at hc
        subst hc
        rfl

theorem collectHeaders_block (ls : List (List Char))
    (h : ∀ l ∈ ls, ∀ c ∈ l, notNl c = true) :
    collectHeaders (ls.flatMap (fun l => l ++ ['\r', '\n']) ++ ['\r', '\n']) =
      hCollect (ls.filterMap splitOnceCS) := by
  have hres : ls.flatMap (fun l => l ++ ['\r', '\n']) ++ ['\r', '\n'] =
      (ls ++ [[]]).flatMap (fun l => l ++ ['\r', '\n']) := by
    simp
  rw [collectHeaders, hres, rustLines_crlf_block (ls ++ [[]])]
  · have : ((ls ++ [([] : List Char)]).filterMap splitOnceCS) = ls.filterMap splitOnceCS := by
      simp [List.filterMap_append]
      rfl
    rw [this]
  · intro l hl
    rcases List.mem_append.mp hl with hl | hl
    · exact h l hl
    · simp only [List.mem_singleton] at hl
      subst hl
      intro c hc
      cases hc

/-! ## Evaluating the matcher on a serialised status line -/

theorem matchVersion_11 (X : List Char) :
    matchVersion ('H' :: 'T' :: 'T' :: 'P' :: '/' :: '1' :: '.' :: '1' :: X) =
      some (['H', 'T', 'T', 'P', '/', '1', '.', '1'], X) := rfl

theorem eatNewline_not (c : Char) (post : List Char) (h1 : c ≠ '\n') (h2 : c ≠ '\r') :
    eatNewline (c :: post) = none := by
  simp [eatNewline, h1, h2]

theorem matchAt_statusMsg (sd re tail : List Char) (hsd : sd ≠ [])
    (hd : ∀ c ∈ sd, isDigitC c = true) (hre : re ≠ [])
    (hrc : ∀ c ∈ re, isReasonC c = true)
    (ht : ∀ c, tail.head? = some c → isReasonC c = false) :
    matchAt (mkStatusMsg sd re tail) =
      some ⟨"HTTP/1.1".toList, sd, re, (groupA tail).1, eatNewline (groupA tail).2⟩ := by
  have htk : (re ++ tail).takeWhile isReasonC = re := by
    cases tail with
    | nil =>
      rw [takeWhile_append_of_all isReasonC re [] hrc]
      simp
    | cons c t => exact takeWhile_run isReasonC re c t hrc (ht c rfl)
  have hdr : (re ++ tail).dropWhile isReasonC = tail := by
    cases tail with
    | nil =>
      rw [dropWhile_append_of_all isReasonC re [] hrc]
      simp
    | cons c t => exact dropWhile_run isReasonC re c t hrc (ht c rfl)
  rw [mkStatusMsg, matchAt, matchVersion_11]
  simp only
  rw [takeWhile_run isDigitC sd ' ' _ hd (by rfl), dropWhile_run isDigitC sd ' ' _ hd (by rfl)]
  simp only [hsd, if_false]
  rw [htk, hdr]
  simp only [hre, if_false]
  rfl

theorem findCaps_of_matchAt (s : List Char) (caps : Caps) (h : matchAt s = some caps) :
    findCaps s = some caps := by
  cases s with
  | nil => cases h
  | cons c rest =>
    rw [findCaps, h]

theorem groupA_block (ls : List (List Char))
    (h : ∀ l ∈ ls, ∀ c ∈ l, notNl c = true) :
    groupA ('\r' :: '\n' :: (ls.flatMap (fun l => l ++ ['\r', '\n']) ++ '\r' :: '\n' :: [])) =
      (some (ls.flatMap (fun l => l ++ ['\r', '\n']) ++ ['\r', '\n']), []) := by
  have h2 : ls.flatMap (fun l => l ++ ['\r', '\n']) ++ '\r' :: '\n' :: [] =
      ls.flatMap (fun l => l ++ ['\r', '\n']) ++ ['\r', '\n'] := rfl
  have h3 : headersLoop (ls.flatMap (fun l => l ++ ['\r', '\n']) ++ ['\r', '\n']) =
      (ls.flatMap (fun l => l ++ ['\r', '\n']) ++ ['\r', '\n'], []) := by
    rw [headersLoop_block ls ['\r', '\n'] h]
    rfl
  rw [groupA]
  show (if (headersLoop (ls.flatMap (fun l => l ++ ['\r', '\n']) ++ '\r' :: '\n' :: [])).1 = []
      then _ else _) = _
  rw [h2, h3]
  simp

theorem findCaps_responseText (sd re : List Char) (ls : List (List Char))
    (hsd : sd ≠ []) (hd : ∀ c ∈ sd, isDigitC c = true)
    (hre : re ≠ []) (hrc : ∀ c ∈ re, isReasonC c = true)
    (hls : ∀ l ∈ ls, ∀ c ∈ l, notNl c = true) :
    findCaps (mkResponseText sd re ls []) =
      some ⟨"HTTP/1.1".toList, sd, re,
            some (ls.flatMap (fun l => l ++ ['\r', '\n']) ++ ['\r', '\n']), none⟩ := by
  apply findCaps_of_matchAt
  rw [mkResponseText, matchAt_statusMsg sd re _ hsd hd hre hrc (by intro c hc; cases hc; rfl)]
  rw [groupA_block ls hls]
  rfl

theorem parse_responseText (sd re : List Char) (ls : List (List Char))
    (hsd : sd ≠ []) (hd : ∀ c ∈ sd, isDigitC c = true)
    (hre : re ≠ []) (hrc : ∀ c ∈ re, isReasonC c = true)
    (hls : ∀ l ∈ ls, ∀ c ∈ l, notNl c = true) :
    Response.parse (mkResponseText sd re ls []) =
      if digitsToNat sd < 65536 then
        .ok ⟨"HTTP/1.1".toList, digitsToNat sd, re, hCollect (ls.filterMap splitOnceCS), []⟩
      else .panicked := by
  rw [Response.parse, findCaps_responseText sd re ls hsd hd hre hrc hls]
  simp only [Option.getD_some, Option.getD_none]
  split
  · rw [collectHeaders_block ls hls]
  · rfl

theorem parse_statusMsg_stop (sd re : List Char) (c : Char) (post : List Char)
    (hsd : sd ≠ []) (hd : ∀ x ∈ sd, isDigitC x = true)
    (hre : re ≠ []) (hrc : ∀ x ∈ re, isReasonC x = true)
    (hc : isReasonC c = false) (hc1 : c ≠ '\r') (hc2 : c ≠ '\n') :
    Response.parse (mkStatusMsg sd re (c :: post)) =
      if digitsToNat sd < 65536 then
        .ok ⟨"HTTP/1.1".toList, digitsToNat sd, re, [], []⟩
      else .panicked := by
  have hA : groupA (c :: post) = (none, c :: post) := by
    rw [groupA, eatNewline_not c post hc2 hc1]
  rw [Response.parse,
    findCaps_of_matchAt _ _ (matchAt_statusMsg sd re (c :: post) hsd hd hre hrc
      (by intro x hx; simp only [List.head?_cons, Option.some.injEq] at hx; subst hx; exact hc))]
  rw [hA]
  simp only [Option.getD_some, Option.getD_none]
  rw [eatNewline_not c post hc2 hc1]
  split
  · rfl
  · rfl

/-! ## Recovering a header map from its rendered lines -/

theorem splitOnceCS_render (k v : List Char) (hk : containsCS k = false) :
    splitOnceCS (k ++ ':' :: ' ' :: v) = some (k, v) := by
  induction k with
  | nil => rfl
  | cons c k0 ih =>
    rw [containsCS] at hk
    have hcond : ¬(c = ':' ∧ (k0 ++ ':' :: ' ' :: v).head? = some ' ') := by
      intro ⟨hc, hh⟩
      cases k0 with
      | nil => simp at hh
      | cons a k1 =>
        simp only [List.cons_append, List.head?_cons, Option.some.injEq] at hh
        rw [if_pos ⟨hc, by simp [hh]⟩] at hk
        cases hk
    rw [List.cons_append, splitOnceCS, if_neg hcond]
    have hk0 : containsCS k0 = false := by
      by_cases h : c = ':' ∧ k0.head? = some ' '
      · rw [if_pos h] at hk
        cases hk
      · rw [if_neg h] at hk
        exact hk
    rw [ih hk0]
    rfl

theorem filterMap_render (hs : List (List Char × List Char))
    (hk : ∀ kv ∈ hs, containsCS kv.1 = false) :
    (hs.map renderHeader).filterMap splitOnceCS = hs := by
  induction hs with
  | nil => rfl
  | cons kv hs ih =>
    obtain ⟨k, v⟩ := kv
    simp only [List.map_cons, List.filterMap_cons]
    rw [renderHeader]
    rw [splitOnceCS_render k v (hk (k, v) (by simp))]
    rw [ih (fun kv hkv => hk kv (by simp [hkv]))]

theorem hInsert_notMem (m : List (List Char × List Char)) (k v : List Char)
    (h : k ∉ m.map Prod.fst) :
    hInsert m k v = m ++ [(k, v)] := by
  induction m with
  | nil => rfl
  | cons kv m ih =>
    obtain ⟨k0, v0⟩ := kv
    have hne : k0 ≠ k := by
      intro hcon
      exact h (by simp [hcon])
    rw [hInsert, if_neg hne, ih (fun hcon => h (by simp [hcon]))]
    rfl

theorem foldl_hInsert_nodup (hs : List (List Char × List Char)) :
    ∀ acc : List (List Char × List Char),
      ((acc ++ hs).map Prod.fst).Nodup →
      hs.foldl (fun m kv => hInsert m kv.1 kv.2) acc = acc ++ hs := by
  induction hs with
  | nil =>
    intro acc _
    simp
  | cons kv hs ih =>
    intro acc hnd
    obtain ⟨k, v⟩ := kv
    have hmem : k ∉ acc.map Prod.fst := by
      intro hcon
      rcases List.mem_map.mp hcon with ⟨p, hp, hpk⟩
      have : (acc ++ (k, v) :: hs).map Prod.fst =
          acc.map Prod.fst ++ k :: hs.map Prod.fst := by simp
      rw [this] at hnd
      rcases List.nodup_append.mp hnd with ⟨_, _, hdisj⟩
      exact hdisj (a := k) (by rw [← hpk]; exact List.mem_map_of_mem Prod.fst hp) (by simp)
    have hstep : hInsert acc k v = acc ++ [(k, v)] := hInsert_notMem acc k v hmem
    simp only [List.foldl_cons, hstep]
    rw [ih (acc ++ [(k, v)]) (by simpa using hnd)]
    simp

theorem hCollect_nodup (hs : List (List Char × List Char))
    (hnd : (hs.map Prod.fst).Nodup) :
    hCollect hs = hs := by
  rw [hCollect, foldl_hInsert_nodup hs [] (by simpa using hnd)]
  simp

/-! ## `hGet` after `hInsert` -/

theorem hGet_hInsert_self (m : List (List Char × List Char)) (k v : List Char) :
    hGet (hInsert m k v) k = some v := by
  induction m with
  | nil => simp [hInsert, hGet]
  | cons kv m ih =>
    obtain ⟨k0, v0⟩ := kv
    by_cases h : k0 = k
    · rw [hInsert, if_pos h, hGet, if_pos rfl]
    · rw [hInsert, if_neg h, hGet, if_neg h]
      exact ih

theorem hGet_hInsert_ne (m : List (List Char × List Char)) (k v k2 : List Char)
    (h : k2 ≠ k) :
    hGet (hInsert m k v) k2 = hGet m k2 := by
  induction m with
  | nil =>
    have hne : k ≠ k2 := fun hcon => h hcon.symm
    simp [hInsert, hGet, hne]
  | cons kv m ih =>
    obtain ⟨k0, v0⟩ := kv
    by_cases h0 : k0 = k
    · subst h0
      rw [hInsert, if_pos rfl, hGet, if_neg (fun hcon => h hcon.symm), hGet,
        if_neg (fun hcon => h hcon.symm)]
    · rw [hInsert, if_neg h0]
      by_cases h2 : k0 = k2
      · rw [hGet, if_pos h2, hGet, if_pos h2]
      · rw [hGet, if_neg h2, hGet, if_neg h2]
        exact ih

/-! ## DNS name encoding lemmas -/

theorem splitDot_ne_nil (s : List Char) : splitDot s ≠ [] := by
  induction s with
  | nil => simp [splitDot]
  | cons c rest ih =>
    rw [splitDot]
    by_cases h : c = '.'
    · simp [h]
    · rw [if_neg h]
      cases hrest : splitDot rest with
      | nil => simp
      | cons l ls => simp

theorem splitDot_cons_ne (c : Char) (rest : List Char) (l : List Char)
    (ls : List (List Char)) (h : c ≠ '.') (hrest : splitDot rest = l :: ls) :
    splitDot (c :: rest) = (c :: l) :: ls := by
  rw [splitDot, if_neg h, hrest]

theorem splitDot_filter (s : List Char) :
    splitDot (s.filter isAsciiC) = (splitDot s).map (List.filter isAsciiC) := by
  induction s with
  | nil => rfl
  | cons c rest ih =>
    by_cases hdot : c = '.'
    · subst hdot
      rw [List.filter_cons_of_pos (by rfl)]
      rw [show splitDot ('.' :: List.filter isAsciiC rest) =
        [] :: splitDot (List.filter isAsciiC rest) from by rw [splitDot, if_pos rfl]]
      rw [show splitDot ('.' :: rest) = [] :: splitDot rest from by rw [splitDot, if_pos rfl]]
      rw [ih]
      rfl
    · obtain ⟨l, ls, hrest⟩ : ∃ l ls, splitDot rest = l :: ls := by
        cases h : splitDot rest with
        | nil => exact absurd h (splitDot_ne_nil rest)
        | cons l ls => exact ⟨l, ls, rfl⟩
      obtain ⟨l2, ls2, hfrest⟩ : ∃ l2 ls2, splitDot (rest.filter isAsciiC) = l2 :: ls2 := by
        cases h : splitDot (rest.filter isAsciiC) with
        | nil => exact absurd h (splitDot_ne_nil _)
        | cons l2 ls2 => exact ⟨l2, ls2, rfl⟩
      have hl2 : l2 = l.filter isAsciiC ∧ ls2 = ls.map (List.filter isAsciiC) := by
        rw [hfrest, hrest, List.map_cons] at ih
        exact ⟨by injection ih, by injection ih⟩
      by_cases hascii : isAsciiC c = true
      · rw [List.filter_cons_of_pos hascii, splitDot_cons_ne c _ l2 ls2 hdot hfrest,
          splitDot_cons_ne c rest l ls hdot hrest]
        simp only [List.map_cons, List.filter_cons_of_pos hascii, hl2.1, hl2.2]
      · have hascii' : ¬(isAsciiC c = true) := hascii
        rw [List.filter_cons_of_neg hascii', ih, hrest, splitDot_cons_ne c rest l ls hdot hrest]
        simp only [List.map_cons]
        rw [List.filter_cons_of_neg hascii']

/-! ## Claim theorems -/

/-- C1: for every request whose send obtains a response with a status in
300-399, a `Location` header, and a positive remaining-redirects
counter, the follow-up request keeps the original method exactly when
the status is 303, and has its method replaced by `GET` for every other
status in 300-399. -/
theorem claim_C1 (req : Request) (resp : Response) (loc : List Char)
    (h1 : 300 ≤ resp.status) (h2 : resp.status < 400)
    (h3 : hGet resp.headers locationKey = some loc) (h4 : req.redirects ≠ 0) :
    ∃ req2, req.handle resp = .follow req2 ∧
      (resp.status = 303 → req2.method = req.method) ∧
      (resp.status ≠ 303 → req2.method = Method.GET) := by
  have hh : req.handle resp =
      if resp.status = 303 then
        StepResult.follow ((req.setRedirects (req.redirects - 1)).setUrl loc)
      else
        StepResult.follow (((req.setRedirects (req.redirects - 1)).setUrl loc).setMethod
          Method.GET) := by
    rw [Request.handle, if_pos ⟨h1, h2⟩, if_neg h4, h3]
  by_cases h5 : resp.status = 303
  · rw [hh, if_pos h5]
    exact ⟨_, rfl, fun _ => rfl, fun hcon => absurd h5 hcon⟩
  · rw [hh, if_neg h5]
    exact ⟨_, rfl, fun hcon => absurd hcon h5, fun _ => rfl⟩

theorem claim_C1_witness :
    ∃ req2, reqEx.handle resp301 = .follow req2 ∧
      (resp301.status = 303 → req2.method = reqEx.method) ∧
      (resp301.status ≠ 303 → req2.method = Method.GET) :=
  claim_C1 reqEx resp301 ("http://example.org/b".toList)
    (by decide) (by decide) (by decide) (by decide)

/-- C3: on a 3xx response, a zero remaining-redirects counter makes send
fail with the redirect-limit error without attempting any further hop
(whatever the transport would have answered next); a positive counter
produces a follow-up request with the counter decremented by exactly
one, the same headers and body, and the URL replaced by the `Location`
value. -/
theorem claim_C3 (req : Request) (resp : Response)
    (h1 : 300 ≤ resp.status) (h2 : resp.status < 400) :
    (req.redirects = 0 →
      req.handle resp = .fail redirectLimitMsg ∧
      ∀ rs, req.sendWith (resp :: rs) = .error redirectLimitMsg) ∧
    (req.redirects ≠ 0 → ∀ loc, hGet resp.headers locationKey = some loc →
      ∃ req2, req.handle resp = .follow req2 ∧ req2.redirects = req.redirects - 1 ∧
        req2.headers = req.headers ∧ req2.body = req.body ∧ req2.url = loc) := by
  constructor
  · intro h0
    have hh : req.handle resp = .fail redirectLimitMsg := by
      rw [Request.handle, if_pos ⟨h1, h2⟩, if_pos h0]
    refine ⟨hh, fun rs => ?_⟩
    rw [Request.sendWith, hh]
  · intro h0 loc h3
    have hh : req.handle resp =
        if resp.status = 303 then
          StepResult.follow ((req.setRedirects (req.redirects - 1)).setUrl loc)
        else
          StepResult.follow (((req.setRedirects (req.redirects - 1)).setUrl loc).setMethod
            Method.GET) := by
      rw [Request.handle, if_pos ⟨h1, h2⟩, if_neg h0, h3]
    by_cases h5 : resp.status = 303
    · rw [hh, if_pos h5]
      exact ⟨_, rfl, rfl, rfl, rfl, rfl⟩
    · rw [hh, if_neg h5]
      exact ⟨_, rfl, rfl, rfl, rfl, rfl⟩

theorem claim_C3_witness :
    reqZero.handle resp301 = .fail redirectLimitMsg ∧
    reqZero.sendWith [resp301, resp200] = .error redirectLimitMsg ∧
    (∃ req2, reqEx.handle resp301 = .follow req2 ∧ req2.redirects = reqEx.redirects - 1 ∧
      req2.headers = reqEx.headers ∧ req2.body = reqEx.body ∧
      req2.url = "http://example.org/b".toList) :=
  ⟨((claim_C3 reqZero resp301 (by decide) (by decide)).1 rfl).1,
   ((claim_C3 reqZero resp301 (by decide) (by decide)).1 rfl).2 [resp200],
   (claim_C3 reqEx resp301 (by decide) (by decide)).2 (by decide) _ (by decide)⟩

/-- C4, counterexample: a 3xx response without a `Location` header does
NOT always produce the missing-redirect-target error — when the
remaining-redirects counter is zero the budget check runs first and the
redirect-limit error is returned instead. -/
theorem claim_C4_cex :
    (300 ≤ respNoLoc.status ∧ respNoLoc.status < 400) ∧
    hGet respNoLoc.headers locationKey = none ∧
    reqZero.handle respNoLoc = .fail redirectLimitMsg ∧
    reqZero.handle respNoLoc ≠ .fail noLocationMsg := by decide

/-- C4 (amended): on a 3xx response whose header map has no `Location`
entry, send with a positive remaining-redirects counter fails with the
missing-redirect-target error; with a zero counter the redirect-limit
error takes precedence; in no case is a response returned or a wrong
address silently followed. -/
theorem claim_C4 (req : Request) (resp : Response)
    (h1 : 300 ≤ resp.status) (h2 : resp.status < 400)
    (h3 : hGet resp.headers locationKey = none) :
    (req.redirects ≠ 0 → req.handle resp = .fail noLocationMsg) ∧
    ∀ r, req.handle resp ≠ .done r := by
  constructor
  · intro h0
    rw [Request.handle, if_pos ⟨h1, h2⟩, if_neg h0, h3]
  · intro r
    rw [Request.handle, if_pos ⟨h1, h2⟩]
    by_cases h0 : req.redirects = 0
    · rw [if_pos h0]
      intro hcon
      cases hcon
    · rw [if_neg h0, h3]
      intro hcon
      cases hcon

theorem claim_C4_witness :
    reqEx.handle respNoLoc = .fail noLocationMsg ∧
    reqEx.handle respNoLoc ≠ .done respNoLoc :=
  ⟨(claim_C4 reqEx respNoLoc (by decide) (by decide) (by decide)).1 (by decide),
   (claim_C4 reqEx respNoLoc (by decide) (by decide) (by decide)).2 respNoLoc⟩

/-- C10: every builder setter replaces only its own field; `header`
changes only the headers map, and only at the given key, overwriting
any previous value there. -/
theorem claim_C10 (r : Request) (m : Method) (u b : List Char) (n : Nat)
    (k v k2 : List Char) (hne : k2 ≠ k) :
    ((r.setMethod m).url = r.url ∧ (r.setMethod m).headers = r.headers ∧
     (r.setMethod m).body = r.body ∧ (r.setMethod m).redirects = r.redirects ∧
     (r.setMethod m).method = m) ∧
    ((r.setUrl u).method = r.method ∧ (r.setUrl u).headers = r.headers ∧
     (r.setUrl u).body = r.body ∧ (r.setUrl u).redirects = r.redirects ∧
     (r.setUrl u).url = u) ∧
    ((r.setBody b).method = r.method ∧ (r.setBody b).url = r.url ∧
     (r.setBody b).headers = r.headers ∧ (r.setBody b).redirects = r.redirects ∧
     (r.setBody b).body = b) ∧
    ((r.setRedirects n).method = r.method ∧ (r.setRedirects n).url = r.url ∧
     (r.setRedirects n).headers = r.headers ∧ (r.setRedirects n).body = r.body ∧
     (r.setRedirects n).redirects = n) ∧
    ((r.header k v).method = r.method ∧ (r.header k v).url = r.url ∧
     (r.header k v).body = r.body ∧ (r.header k v).redirects = r.redirects ∧
     hGet (r.header k v).headers k = some v ∧
     hGet (r.header k v).headers k2 = hGet r.headers k2) :=
  ⟨⟨rfl, rfl, rfl, rfl, rfl⟩, ⟨rfl, rfl, rfl, rfl, rfl⟩, ⟨rfl, rfl, rfl, rfl, rfl⟩,
   ⟨rfl, rfl, rfl, rfl, rfl⟩,
   ⟨rfl, rfl, rfl, rfl, hGet_hInsert_self r.headers k v,
    hGet_hInsert_ne r.headers k v k2 hne⟩⟩

theorem claim_C10_witness :
    ((reqEx.setMethod Method.PUT).url = reqEx.url ∧
     (reqEx.setMethod Method.PUT).headers = reqEx.headers ∧
     (reqEx.setMethod Method.PUT).body = reqEx.body ∧
     (reqEx.setMethod Method.PUT).redirects = reqEx.redirects ∧
     (reqEx.setMethod Method.PUT).method = Method.PUT) ∧
    ((reqEx.setUrl "a.org".toList).method = reqEx.method ∧
     (reqEx.setUrl "a.org".toList).headers = reqEx.headers ∧
     (reqEx.setUrl "a.org".toList).body = reqEx.body ∧
     (reqEx.setUrl "a.org".toList).redirects = reqEx.redirects ∧
     (reqEx.setUrl "a.org".toList).url = "a.org".toList) ∧
    ((reqEx.setBody "b".toList).method = reqEx.method ∧
     (reqEx.setBody "b".toList).url = reqEx.url ∧
     (reqEx.setBody "b".toList).headers = reqEx.headers ∧
     (reqEx.setBody "b".toList).redirects = reqEx.redirects ∧
     (reqEx.setBody "b".toList).body = "b".toList) ∧
    ((reqEx.setRedirects 7).method = reqEx.method ∧
     (reqEx.setRedirects 7).url = reqEx.url ∧
     (reqEx.setRedirects 7).headers = reqEx.headers ∧
     (reqEx.setRedirects 7).body = reqEx.body ∧
     (reqEx.setRedirects 7).redirects = 7) ∧
    ((reqEx.header "A".toList "x".toList).method = reqEx.method ∧
     (reqEx.header "A".toList "x".toList).url = reqEx.url ∧
     (reqEx.header "A".toList "x".toList).body = reqEx.body ∧
     (reqEx.header "A".toList "x".toList).redirects = reqEx.redirects ∧
     hGet (reqEx.header "A".toList "x".toList).headers "A".toList = some "x".toList ∧
     hGet (reqEx.header "A".toList "x".toList).headers "B".toList =
       hGet reqEx.headers "B".toList) :=
  claim_C10 reqEx Method.PUT "a.org".toList "b".toList 7 "A".toList "x".toList
    "B".toList (by decide)

/-- C7: in a response whose status line is valid, CRLF-terminated header
lines lacking the exact separator `": "` are silently skipped: the
parse still succeeds and the header map is collected from exactly the
lines that split (each at the first occurrence of `": "`). -/
theorem claim_C7 (sd re : List Char) (ls : List (List Char))
    (hsd : sd ≠ []) (hd : ∀ c ∈ sd, isDigitC c = true) (hv : digitsToNat sd < 65536)
    (hre : re ≠ []) (hrc : ∀ c ∈ re, isReasonC c = true)
    (hls : ∀ l ∈ ls, ∀ c ∈ l, notNl c = true) :
    Response.parse (mkResponseText sd re ls []) =
      .ok ⟨"HTTP/1.1".toList, digitsToNat sd, re, hCollect (ls.filterMap splitOnceCS), []⟩ := by
  rw [parse_responseText sd re ls hsd hd hre hrc hls, if_pos hv]

theorem claim_C7_witness :
    Response.parse (mkResponseText "200".toList "OK".toList
      ["Good: yes".toList, "badline".toList, "Also: fine".toList] []) =
      .ok ⟨"HTTP/1.1".toList, digitsToNat "200".toList, "OK".toList,
           hCollect (["Good: yes".toList, "badline".toList,
             "Also: fine".toList].filterMap splitOnceCS), []⟩ :=
  claim_C7 "200".toList "OK".toList _
    (by decide) (by decide) (by decide) (by decide) (by decide) (by decide)

/-- C2, counterexample: serialising status 200, reason `OK`, an empty
header map and the nonempty body `x`, then parsing, yields an empty
body — the original body is not recovered, so the round trip fails as
universally stated. -/
theorem claim_C2_cex :
    Response.parse (serializeResponse "200".toList "OK".toList [] "x".toList) =
      .ok ⟨"HTTP/1.1".toList, 200, "OK".toList, [], []⟩ ∧
    "x".toList ≠ ([] : List Char) := by decide

/-- C2 (amended): for every status in [100, 599], every nonempty reason
phrase of letters and spaces, and every header map whose names avoid
the `": "` separator and whose names and values are newline-free,
serialising with an EMPTY body and parsing recovers the original
status, reason, header map and (empty) body; a nonempty body is not
recovered — the greedy header group absorbs the blank line, and a
newline-free nonempty body parses back as empty (see the
counterexample). -/
theorem claim_C2 (sd re : List Char) (hs : List (List Char × List Char))
    (hsd : sd ≠ []) (hd : ∀ c ∈ sd, isDigitC c = true)
    (hlo : 100 ≤ digitsToNat sd) (hhi : digitsToNat sd ≤ 599)
    (hre : re ≠ []) (hrc : ∀ c ∈ re, isReasonC c = true)
    (hhs : ∀ kv ∈ hs, containsCS kv.1 = false ∧ (∀ c ∈ kv.1, notNl c = true) ∧
      (∀ c ∈ kv.2, notNl c = true))
    (hnd : (hs.map Prod.fst).Nodup) :
    Response.parse (serializeResponse sd re hs []) =
      .ok ⟨"HTTP/1.1".toList, digitsToNat sd, re, hs, []⟩ := by
  rw [serializeResponse]
  have hls : ∀ l ∈ hs.map renderHeader, ∀ c ∈ l, notNl c = true := by
    intro l hl c hc
    rcases List.mem_map.mp hl with ⟨kv, hkv, rfl⟩
    rw [renderHeader] at hc
    rcases List.mem_append.mp hc with hck | hcv
    · exact (hhs kv hkv).2.1 c hck
    · rcases hcv with _ | ⟨_, hcv⟩
      · rfl
      · rcases hcv with _ | ⟨_, hcv⟩
        · rfl
        · exact (hhs kv hkv).2.2 c hcv
  rw [parse_responseText sd re _ hsd hd hre hrc hls, if_pos (by omega)]
  rw [filterMap_render hs (fun kv hkv => (hhs kv hkv).1), hCollect_nodup hs hnd]

theorem claim_C2_witness :
    Response.parse (serializeResponse "301".toList "Moved Permanently".toList
      [("Location".toList, "https://example.org/".toList)] []) =
      .ok ⟨"HTTP/1.1".toList, digitsToNat "301".toList, "Moved Permanently".toList,
           [("Location".toList, "https://example.org/".toList)], []⟩ :=
  claim_C2 "301".toList "Moved Permanently".toList _
    (by decide) (by decide) (by decide) (by decide) (by decide) (by decide)
    (by decide) (by decide)

/-- C5, counterexample: the code applies no [100, 599] range check —
status 99 parses successfully (the claim demands failure for any
out-of-range status), and a numeric status above `u16::MAX` panics
instead of returning an error. -/
theorem claim_C5_cex :
    Response.parse ("HTTP/1.1 99 Continue\r\n\r\n".toList) =
      .ok ⟨"HTTP/1.1".toList, 99, "Continue".toList, [], []⟩ ∧
    99 < 100 ∧
    Response.parse ("HTTP/1.1 99999 Huge\r\n\r\n".toList) = .panicked := by decide

/-- C5 (amended): parse succeeds whenever the status token is a digit
string whose value fits in `u16`, with NO [100, 599] range
restriction; a numeric token whose value exceeds 65535 crashes
(`unwrap` panic on the `u16` conversion) rather than returning an
error; a status line whose status token is not numeric (and with no
other match in the text) yields the `invalid message` parse error. -/
theorem claim_C5 :
    (∀ sd re : List Char, sd ≠ [] → (∀ c ∈ sd, isDigitC c = true) →
      digitsToNat sd < 65536 → re ≠ [] → (∀ c ∈ re, isReasonC c = true) →
      Response.parse (mkResponseText sd re [] []) =
        .ok ⟨"HTTP/1.1".toList, digitsToNat sd, re, [], []⟩) ∧
    (∀ sd re : List Char, sd ≠ [] → (∀ c ∈ sd, isDigitC c = true) →
      65536 ≤ digitsToNat sd → re ≠ [] → (∀ c ∈ re, isReasonC c = true) →
      Response.parse (mkResponseText sd re [] []) = .panicked) ∧
    Response.parse ("HTTP/1.1 ab cd\r\n\r\n".toList) = .err ("invalid message".toList) := by
  refine ⟨?_, ?_, by decide⟩
  · intro sd re h1 h2 h3 h4 h5
    rw [parse_responseText sd re [] h1 h2 h4 h5 (by intro l hl; cases hl), if_pos h3]
    rfl
  · intro sd re h1 h2 h3 h4 h5
    rw [parse_responseText sd re [] h1 h2 h4 h5 (by intro l hl; cases hl),
      if_neg (by omega)]

theorem claim_C5_witness :
    Response.parse (mkResponseText "600".toList "Out".toList [] []) =
      .ok ⟨"HTTP/1.1".toList, digitsToNat "600".toList, "Out".toList, [], []⟩ ∧
    Response.parse (mkResponseText "99999".toList "Huge".toList [] []) = .panicked :=
  ⟨claim_C5.1 "600".toList "Out".toList
     (by decide) (by decide) (by decide) (by decide) (by decide),
   claim_C5.2.1 "99999".toList "Huge".toList
     (by decide) (by decide) (by decide) (by decide) (by decide)⟩

/-- C6, counterexample: a status line whose reason region contains a
comma (not a letter or space) does not make the parse fail — the parse
succeeds with the reason truncated at the first invalid character. -/
theorem claim_C6_cex :
    Response.parse ("HTTP/1.1 301 Moved, Permanently\r\nLocation: x\r\n\r\n".toList) =
      .ok ⟨"HTTP/1.1".toList, 301, "Moved".toList, [], []⟩ ∧
    isReasonC ',' = false := by decide

/-- C6 (amended): a reason region that begins with at least one letter
or space parses successfully with the reason truncated to its maximal
letter/space prefix (when the next character is not a CR or LF, the
header and body groups are also skipped); the parse fails only when
the reason position starts with an invalid character and the pattern
matches nowhere else in the text. -/
theorem claim_C6 :
    (∀ (sd pre : List Char) (c : Char) (post : List Char),
      sd ≠ [] → (∀ x ∈ sd, isDigitC x = true) → digitsToNat sd < 65536 →
      pre ≠ [] → (∀ x ∈ pre, isReasonC x = true) →
      isReasonC c = false → c ≠ '\r' → c ≠ '\n' →
      Response.parse (mkStatusMsg sd pre (c :: post)) =
        .ok ⟨"HTTP/1.1".toList, digitsToNat sd, pre, [], []⟩) ∧
    Response.parse ("HTTP/1.1 200 !bad\r\n\r\n".toList) = .err ("invalid message".toList) := by
  refine ⟨?_, by decide⟩
  intro sd pre c post h1 h2 h3 h4 h5 h6 h7 h8
  rw [parse_statusMsg_stop sd pre c post h1 h2 h4 h5 h6 h7 h8, if_pos h3]

theorem claim_C6_witness :
    Response.parse (mkStatusMsg "301".toList "Moved".toList
      (',' :: " Permanently".toList)) =
      .ok ⟨"HTTP/1.1".toList, digitsToNat "301".toList, "Moved".toList, [], []⟩ :=
  claim_C6.1 "301".toList "Moved".toList ',' " Permanently".toList
    (by decide) (by decide) (by decide) (by decide) (by decide) (by decide)
    (by decide) (by decide)

/-- C8: for every request whose URL matches the URI regex with no path
capture, the serialised request uses path `/`; in particular
`Request::get("example.org")` serialises exactly to
`"GET / HTTP/1.1\r\nHost: example.org\r\n\r\n"`. -/
theorem claim_C8 :
    (∀ (r : Request) (caps : UriCaps), uriFind r.url = some caps → caps.path = none →
      r.toString = some (serializedWithRootPath r caps.host)) ∧
    (Request.get "example.org".toList).toString =
      some ("GET / HTTP/1.1\r\nHost: example.org\r\n\r\n".toList) := by
  constructor
  · intro r caps hfind hpath
    have hp : uri.path r.url = some ['/'] := by
      rw [uri.path, hfind]
      show some (caps.path.getD ['/']) = some ['/']
      rw [hpath]
      rfl
    have hh : uri.host r.url = some caps.host := by
      rw [uri.host, hfind]
      rfl
    rw [Request.toString, hp, hh]
    rfl
  · decide

theorem claim_C8_witness :
    (Request.get "example.org".toList).toString =
      some (serializedWithRootPath (Request.get "example.org".toList)
        "example.org".toList) :=
  claim_C8.1 (Request.get "example.org".toList)
    ⟨none, "example.org".toList, none, none⟩ (by decide) rfl

/-- The clamped length byte of a DNS label equals `min(len, 63)`. -/
theorem lenByte_eq (n : Nat) : Nat.min (if 255 < n then 63 else n) 63 = Nat.min n 63 := by
  by_cases h : 255 < n
  · rw [if_pos h]
    simp only [Nat.min_def]
    rw [if_pos (Nat.le_refl 63), if_neg (by omega)]
  · rw [if_neg h]

/-- C9: for every hostname, the encoded DNS name equals the
concatenation, over the `.`-separated labels of the hostname with
non-ASCII characters stripped, of one length byte `min(label length,
63)` followed by the first `min(label length, 63)` bytes of the label,
terminated by a single zero byte — over-long labels are truncated,
never rejected (the encoder is total). -/
theorem claim_C9 (query : List Char) : dnsName query = dnsNameSpec query := by
  rw [dnsName, dnsNameSpec, splitDot_filter]
  congr 1
  induction splitDot query with
  | nil => rfl
  | cons l ls ih =>
    simp only [List.map_cons, List.flatMap_cons]
    rw [ih]
    congr 1
    rw [show Nat.min (if 255 < (l.filter isAsciiC).length then 63
      else (l.filter isAsciiC).length) 63 = Nat.min (l.filter isAsciiC).length 63
      from lenByte_eq _]
